import Mathlib

/-!
A verification development for the Tempus WR history viewer.

The definitions below are a shallow embedding of the application's core
logic (`src/App.tsx`): the CSV decoder (`parseCsvRows` / `parseCsv`), the
identity resolver (`normalizeSteamId64` / `parseSteamId64`), the segment
classifier (`getZoneInfo` / `sanitizeSegmentName`), and the timeline
reconstructor (the `timeline` memo: point construction, sort, forward
pass, backward annotation pass).

Modelling choices:
* JavaScript strings are modelled as `String` / `List Char`; the
  JavaScript `trim` whitespace class is modelled by `Char.isWhitespace`.
* JavaScript floating-point durations are modelled as exact rationals
  (`ℚ`); the source's fixed epsilon `0.0001` is the rational `1/10000`.
* `Date.parse` and `parseTimeToSeconds` are kept abstract as parameters
  `dateParse : String → Option Int` and `timeParse : String → Option ℚ`
  (`none` models `NaN` / `null`); the falsy-zero guard `!dateValue` of
  the source is embedded explicitly in `mkPointsAux`.
* `Array.prototype.sort` with the comparator
  `a.dateValue - b.dateValue || a.rowIndex - b.rowIndex` is modelled by
  `List.insertionSort` over the corresponding total preorder `pointLe`.
* `BigInt` arithmetic is modelled on `Nat`; `.toString()` by `Nat.repr`.
-/

/-! ### Character-list string helpers (JS string primitives) -/

/-- JS `String.prototype.trim`, on character lists. -/
def trimChars (l : List Char) : List Char :=
  ((l.dropWhile Char.isWhitespace).reverse.dropWhile Char.isWhitespace).reverse

/-- Value of a digit string, as computed by JS `BigInt` / `parseInt` on an
all-digit string. -/
def digitsToNat (l : List Char) : Nat :=
  l.foldl (fun n c => n * 10 + (c.toNat - 48)) 0

/-- The JS regex test `/^\d+$/`: nonempty and all digits. -/
def isDigits (l : List Char) : Bool :=
  !l.isEmpty && l.all Char.isDigit

/-- JS `String.prototype.split` with a one-character separator. -/
def splitCh (sep : Char) : List Char → List (List Char)
  | [] => [[]]
  | c :: rest =>
    match splitCh sep rest with
    | [] => [[]]
    | h :: t => if c = sep then [] :: h :: t else (c :: h) :: t

/-- JS `String.prototype.lastIndexOf` for a single character
(`-1` when absent). -/
def lastIndexOfCh (c : Char) : List Char → Int
  | [] => -1
  | a :: rest =>
    let r := lastIndexOfCh c rest
    if 0 ≤ r then r + 1
    else if a = c then 0 else -1

/-- JS line terminators (`\n`, `\r`, U+2028, U+2029), which `.` in a
regex without the `s` flag does not match. -/
def isLineTerm (c : Char) : Bool :=
  c = '\n' || c = '\r' || c.toNat = 8232 || c.toNat = 8233

/-! ### CSV decoder (`parseCsvRows` / `parseCsv` in App.tsx) -/

/-- The guard `row.some((cell) => cell.trim().length > 0)` of the source:
a row is kept only if some cell trims to a nonempty string. -/
def rowHasContent (row : List (List Char)) : Bool :=
  row.any (fun cell => !(trimChars cell).isEmpty)

/-- The character loop of `parseCsvRows`, with the loop state
(`inQuotes`, current `field`, current `row`) made explicit; the emitted
rows are returned in order.  At end of input an unterminated quote is
simply abandoned (`inQuotes = false` has no further effect) and the
final partial record is flushed. -/
def parseCsvRowsAux : List Char → Bool → List Char → List (List Char) →
    List (List (List Char))
  | [], _inQuotes, field, row =>
    if field.length > 0 ∨ row.length > 0 then
      if rowHasContent (row ++ [field]) then [row ++ [field]] else []
    else []
  | '\"' :: '\"' :: rest, true, field, row =>
    parseCsvRowsAux rest true (field ++ ['\"']) row
  | '\"' :: rest, true, field, row =>
    parseCsvRowsAux rest false field row
  | c :: rest, true, field, row =>
    parseCsvRowsAux rest true (field ++ [c]) row
  | '\"' :: rest, false, field, row =>
    parseCsvRowsAux rest true field row
  | ',' :: rest, false, field, row =>
    parseCsvRowsAux rest false [] (row ++ [field])
  | '\r' :: rest, false, field, row =>
    parseCsvRowsAux rest false field row
  | '\n' :: rest, false, field, row =>
    if rowHasContent (row ++ [field]) then (row ++ [field]) :: parseCsvRowsAux rest false [] []
    else parseCsvRowsAux rest false [] []
  | c :: rest, false, field, row =>
    parseCsvRowsAux rest false (field ++ [c]) row

/-- `parseCsvRows`: raw text to a sequence of rows of cells. -/
def parseCsvRows (text : String) : List (List (List Char)) :=
  parseCsvRowsAux text.data false [] []

/-- `parseCsv`: decode and key every data row by the header row.  The JS
object `{header: cell}` built by `headers.forEach` is modelled as an
association list in header order, with `cells[index] ?? ''` embedded as
`List.getD` with default `""`. -/
def parseCsv (text : String) : List (List (String × String)) :=
  let rows := parseCsvRows text
  if rows.length ≤ 1 then []
  else
    match rows with
    | [] => []
    | headers :: rest =>
      rest.map (fun cells =>
        headers.enum.map (fun hi => (String.mk hi.2, String.mk (cells.getD hi.1 []))))

/-! ### Identity resolver (`normalizeSteamId64` / `parseSteamId64`) -/

/-- The constant `STEAM_ID64_BASE = 76561197960265728n`. -/
def STEAM_ID64_BASE : Nat := 76561197960265728

/-- `normalizeSteamId64`: accept a bare 16–17 digit decimal string
(the regex `/^\d{16,17}$/`), after trimming. -/
def normalizeSteamId64Chars (value : List Char) : Option (List Char) :=
  if value.isEmpty then none
  else
    let trimmed := trimChars value
    if trimmed.isEmpty then none
    else if 16 ≤ trimmed.length ∧ trimmed.length ≤ 17 ∧ trimmed.all Char.isDigit then
      some trimmed
    else none

/-- `parseSteamId64`: resolve a legacy identifier to a canonical
steamID64 string, in the source's fixed priority order: direct 16–17
digit value, then `[U:X:Y]`, then `STEAM_X:Y:Z`; `none` models the JS
`null` ("no match"). -/
def parseSteamId64 (steamId : String) : Option String :=
  if steamId.data = [] then none
  else
    let trimmed := trimChars steamId.data
    if trimmed = [] then none
    else
      match normalizeSteamId64Chars trimmed with
      | some direct => some (String.mk direct)
      | none =>
        let uResult : Option String :=
          if trimmed.take 3 = ['[', 'U', ':'] ∧ trimmed.getLast? = some ']' then
            let lastColon := lastIndexOfCh ':' trimmed
            if 0 < lastColon then
              let value :=
                (trimmed.drop (lastColon.toNat + 1)).take
                  (trimmed.length - 1 - (lastColon.toNat + 1))
              if isDigits value then
                some (Nat.repr (STEAM_ID64_BASE + digitsToNat value))
              else none
            else none
          else none
        match uResult with
        | some r => some r
        | none =>
          if trimmed.take 6 = ['S', 'T', 'E', 'A', 'M', '_'] then
            match splitCh ':' (trimmed.drop 6) with
            | [_p0, p1, p2] =>
              if isDigits p1 ∧ isDigits p2 then
                some (Nat.repr (STEAM_ID64_BASE + digitsToNat p2 * 2 + digitsToNat p1))
              else none
            | _ => none
          else none

/-! ### Segment classifier (`getZoneInfo` / `sanitizeSegmentName`) -/

inductive ZoneKind where
  | bonus
  | course
  | segment
deriving DecidableEq, Repr

structure ZoneInfo where
  id : String
  label : String
  kind : ZoneKind
  order : Nat
deriving DecidableEq, Repr

/-- The regex `/^Keyword\s+(\d+)/i` (used with `Bonus` and `Course`):
case-insensitive keyword, at least one whitespace, then the maximal
leading digit run, whose value is returned. -/
def matchKeywordNum (keyword : List Char) (l : List Char) : Option Nat :=
  if (l.take keyword.length).map Char.toLower = keyword then
    let rest := l.drop keyword.length
    if (rest.takeWhile Char.isWhitespace).isEmpty then none
    else
      let digits := (rest.dropWhile Char.isWhitespace).takeWhile Char.isDigit
      if digits.isEmpty then none else some (digitsToNat digits)
  else none

/-- The regex `/^C(\d+)\s*-\s*(.+)$/i`: `C`, digits, optional
whitespace, `-`, then the second capture.  The capture is the rest
after the maximal whitespace run when that is nonempty (it must then be
free of line terminators, which `.` cannot match); when the rest is
whitespace only, regex backtracking lets `.+` consume exactly the final
whitespace character, provided it is not a line terminator. -/
def matchSegmentName (l : List Char) : Option (Nat × List Char) :=
  match l with
  | [] => none
  | c :: rest =>
    if c.toLower = 'c' then
      let digits := rest.takeWhile Char.isDigit
      if digits.isEmpty then none
      else
        match (rest.dropWhile Char.isDigit).dropWhile Char.isWhitespace with
        | '-' :: tail =>
          let name := tail.dropWhile Char.isWhitespace
          if name.isEmpty then
            match (tail.takeWhile Char.isWhitespace).getLast? with
            | some wchar =>
              if isLineTerm wchar then none else some (digitsToNat digits, [wchar])
            | none => none
          else if name.all (fun ch => !isLineTerm ch) then
            some (digitsToNat digits, name)
          else none
        | _ => none
    else none

/-- `sanitizeSegmentName`: trim, strip a trailing `\s+First` (the regex
`/\s+First$/i`, i.e. the literal word and every contiguous whitespace
character before it), and trim again. -/
def sanitizeSegmentName (value : List Char) : List Char :=
  let t := trimChars value
  let r := t.reverse
  if (r.take 5).map Char.toLower = ['t', 's', 'r', 'i', 'f'] ∧
      ((r.drop 5).head?.any Char.isWhitespace) = true then
    trimChars (((r.drop 5).dropWhile Char.isWhitespace).reverse)
  else t

/-- `getZoneInfo`: classify free-text segment labels into zone
descriptors, trying `Bonus N`, `Course N`, `C<N> - <name>` and bare
`C<N>` in order; `none` models the JS `null` ("no zone"). -/
def getZoneInfo (source : String) : Option ZoneInfo :=
  if source.data = [] then none
  else
    let trimmed := trimChars source.data
    if trimmed = [] then none
    else
      match matchKeywordNum ['b', 'o', 'n', 'u', 's'] trimmed with
      | some order =>
        some { id := "bonus-" ++ Nat.repr order, label := "Bonus " ++ Nat.repr order,
               kind := ZoneKind.bonus, order := order }
      | none =>
      match matchKeywordNum ['c', 'o', 'u', 'r', 's', 'e'] trimmed with
      | some order =>
        some { id := "course-" ++ Nat.repr order, label := "Course " ++ Nat.repr order,
               kind := ZoneKind.course, order := order }
      | none =>
      match matchSegmentName trimmed with
      | some (order, rawName) =>
        let name := sanitizeSegmentName rawName
        let label :=
          if name.isEmpty then "C" ++ Nat.repr order
          else "C" ++ Nat.repr order ++ " - " ++ String.mk name
        some { id := "segment-" ++ Nat.repr order, label := label,
               kind := ZoneKind.segment, order := order }
      | none =>
      match trimmed with
      | c :: rest =>
        if c.toLower = 'c' ∧ ¬(rest.takeWhile Char.isDigit).isEmpty then
          let order := digitsToNat (rest.takeWhile Char.isDigit)
          some { id := "segment-" ++ Nat.repr order, label := "C" ++ Nat.repr order,
                 kind := ZoneKind.segment, order := order }
        else none
      | [] => none

/-! ### Timeline reconstructor (the `timeline` memo in App.tsx) -/

/-- One decoded CSV row (the `CsvRow` type of the source; `evidence` is
a string at runtime). -/
structure CsvRow where
  date : String
  record_time : String
  player : String
  map : String
  record_type : String
  segment : String
  evidence : String
  evidence_source : String
  run_time : String
  split : String
  improvement : String
  demo_id : String
  steam_id64 : String
  steam_id : String
  steam_candidates : String
deriving DecidableEq, Repr

/-- Row constructor fixing the fields the reconstructor never reads. -/
def mkRow (date record_time evidence evidence_source : String) : CsvRow :=
  { date := date, record_time := record_time, player := "", map := "",
    record_type := "", segment := "", evidence := evidence,
    evidence_source := evidence_source, run_time := "", split := "",
    improvement := "", demo_id := "", steam_id64 := "", steam_id := "",
    steam_candidates := "" }

/-- A `DataPoint`: a row augmented with its decode index and parsed
date/duration (the source spreads the row; here it is nested). -/
structure DataPoint where
  row : CsvRow
  rowIndex : Nat
  dateValue : Int
  recordSeconds : ℚ
deriving DecidableEq, Repr

/-- A `TimelinePoint`: a data point with the two annotation flags. -/
structure TimelinePoint where
  point : DataPoint
  wiped : Bool
  wipedBoundary : Bool
deriving DecidableEq, Repr

/-- The fixed numeric tolerance `epsilon = 0.0001` of the source. -/
def epsilon : ℚ := 1 / 10000

/-- `a + epsilon < b`, stated on numerators and denominators.  The
rational arithmetic of the standard library is `@[irreducible]`, so
this integer form is what the decidability instances below evaluate. -/
lemma add_epsilon_lt_iff (a b : ℚ) :
    a + epsilon < b ↔ (a.num * 10000 + a.den) * b.den < b.num * (a.den * 10000) := by
  have hb : (0 : ℚ) < (b.den : ℚ) := by exact_mod_cast b.den_pos
  have h10 : (0 : ℚ) < (a.den : ℚ) * 10000 := by
    have ha : (0 : ℚ) < (a.den : ℚ) := by exact_mod_cast a.den_pos
    positivity
  rw [← mul_lt_mul_right h10, ← mul_lt_mul_right hb]
  have e1 : (a + epsilon) * ((a.den : ℚ) * 10000) * (b.den : ℚ)
      = (((a.num * 10000 + a.den) * b.den : ℤ) : ℚ) := by
    rw [show epsilon = 1 / 10000 from rfl]
    push_cast
    linear_combination (10000 * (b.den : ℚ)) * Rat.mul_den_eq_num a
  have e2 : b * ((a.den : ℚ) * 10000) * (b.den : ℚ)
      = ((b.num * (a.den * 10000) : ℤ) : ℚ) := by
    push_cast
    linear_combination ((a.den : ℚ) * 10000) * Rat.mul_den_eq_num b
  rw [e1, e2]
  exact Int.cast_lt

/-- Kernel-computable decidability for the source comparison
`a < b - epsilon` (equivalently `a + epsilon < b`). -/
instance decLtSubEpsilon (a b : ℚ) : Decidable (a < b - epsilon) :=
  decidable_of_iff ((a.num * 10000 + a.den) * b.den < b.num * (a.den * 10000))
    ((add_epsilon_lt_iff a b).symm.trans lt_sub_iff_add_lt.symm)

/-- Kernel-computable decidability for the source comparison
`b + epsilon < a` (the elaboration of `a > b + epsilon`). -/
instance decAddEpsilonLt (b a : ℚ) : Decidable (b + epsilon < a) :=
  decidable_of_iff ((b.num * 10000 + b.den) * a.den < a.num * (b.den * 10000))
    (add_epsilon_lt_iff b a).symm

/-- JS `value.trim().toLowerCase()` on a string field, at character
level (`String.trim` / `String.toLower` are modelled by `trimChars` and
`Char.toLower`). -/
def lowerTrim (s : String) : List Char :=
  (trimChars s.data).map Char.toLower

/-- `isWipeBoundaryTrigger`: evidence `record`, or evidence
`announcement` with evidence source `irc_set` (after trim and
lowercase, as in the source). -/
def isWipeBoundaryTrigger (row : CsvRow) : Bool :=
  let evidence := lowerTrim row.evidence
  let source := lowerTrim row.evidence_source
  evidence == "record".data ||
    (evidence == "announcement".data && source == "irc_set".data)

/-- The sort order of the comparator
`a.dateValue - b.dateValue || a.rowIndex - b.rowIndex`. -/
def pointLe (a b : DataPoint) : Prop :=
  a.dateValue < b.dateValue ∨ (a.dateValue = b.dateValue ∧ a.rowIndex ≤ b.rowIndex)

instance : DecidableRel pointLe := fun a b => by
  unfold pointLe
  infer_instance

instance : IsTotal DataPoint pointLe where
  total a b := by
    unfold pointLe
    rcases lt_trichotomy a.dateValue b.dateValue with h | h | h
    · exact Or.inl (Or.inl h)
    · rcases Nat.le_total a.rowIndex b.rowIndex with h2 | h2
      · exact Or.inl (Or.inr ⟨h, h2⟩)
      · exact Or.inr (Or.inr ⟨h.symm, h2⟩)
    · exact Or.inr (Or.inl h)

instance : IsTrans DataPoint pointLe where
  trans a b c hab hbc := by
    unfold pointLe at *
    rcases hab with h1 | ⟨e1, r1⟩
    · rcases hbc with h2 | ⟨e2, _⟩
      · exact Or.inl (h1.trans h2)
      · exact Or.inl (e2 ▸ h1)
    · rcases hbc with h2 | ⟨e2, r2⟩
      · exact Or.inl (e1 ▸ h2)
      · exact Or.inr ⟨e1.trans e2, r1.trans r2⟩

/-- `points.sort((a, b) => a.dateValue - b.dateValue || a.rowIndex - b.rowIndex)`. -/
def sortPoints (l : List DataPoint) : List DataPoint :=
  List.insertionSort pointLe l

/-- The forward pass of the reconstructor, with the running
current-best time made explicit (`none` = unset). -/
def forwardPass : Option ℚ → List DataPoint → List TimelinePoint
  | _, [] => []
  | none, p :: rest =>
    ⟨p, false, false⟩ :: forwardPass (some p.recordSeconds) rest
  | some current, p :: rest =>
    if p.recordSeconds < current - epsilon then
      ⟨p, false, false⟩ :: forwardPass (some p.recordSeconds) rest
    else if isWipeBoundaryTrigger p.row ∧ p.recordSeconds > current + epsilon then
      ⟨p, false, true⟩ :: forwardPass (some p.recordSeconds) rest
    else
      forwardPass (some current) rest

/-- The backward annotation pass (the source's right-to-left loop),
written as structural recursion that processes the tail first; returns
the running `maxWipeBoundary` together with the annotated list. -/
def backwardPass : List TimelinePoint → Option ℚ × List TimelinePoint
  | [] => (none, [])
  | p :: rest =>
    let result := backwardPass rest
    let maxWipeBoundary :=
      if p.wipedBoundary then
        some (match result.1 with
              | none => p.point.recordSeconds
              | some v => max v p.point.recordSeconds)
      else result.1
    let wiped :=
      match maxWipeBoundary with
      | none => false
      | some v => decide (p.point.recordSeconds < v - epsilon)
    (maxWipeBoundary, ⟨p.point, wiped, p.wipedBoundary⟩ :: result.2)

/-- The reconstructor on data points: sort, forward pass, backward
annotation pass. -/
def reconstructTimeline (l : List DataPoint) : List TimelinePoint :=
  (backwardPass (forwardPass none (sortPoints l))).2

/-- Point construction of the `timeline` memo: index the filtered rows,
parse date and duration, and drop a row when the duration fails to
parse or the date is falsy (`!dateValue`: parse failure or timestamp
`0`). -/
def mkPointsAux (dateParse : String → Option Int) (timeParse : String → Option ℚ) :
    Nat → List CsvRow → List DataPoint
  | _, [] => []
  | i, row :: rest =>
    match dateParse row.date, timeParse row.record_time with
    | some d, some s =>
      if d = 0 then mkPointsAux dateParse timeParse (i + 1) rest
      else ⟨row, i, d, s⟩ :: mkPointsAux dateParse timeParse (i + 1) rest
    | _, _ => mkPointsAux dateParse timeParse (i + 1) rest

def mkPoints (dateParse : String → Option Int) (timeParse : String → Option ℚ)
    (rows : List CsvRow) : List DataPoint :=
  mkPointsAux dateParse timeParse 0 rows

/-- The whole `timeline` memo, parametric in the two parsers. -/
def timeline (dateParse : String → Option Int) (timeParse : String → Option ℚ)
    (rows : List CsvRow) : List TimelinePoint :=
  reconstructTimeline (mkPoints dateParse timeParse rows)

/-! ### Concrete scenario data -/

/-- Date parser for the C1 scenario (`d1 < d2 < d3`). -/
def c1Dp : String → Option Int := fun s =>
  if s = "d1" then some 100 else if s = "d2" then some 200
  else if s = "d3" then some 300 else none

/-- Duration parser for the C1 scenario (60 s, 55 s, 65 s). -/
def c1Tp : String → Option ℚ := fun s =>
  if s = "t60" then some 60 else if s = "t55" then some 55
  else if s = "t65" then some 65 else none

/-- The C1 scenario rows: `(d1, 60s, record)`, `(d2, 55s, record)`,
`(d3, 65s, announcement/irc_set)`. -/
def c1Rows : List CsvRow :=
  [mkRow "d1" "t60" "record" "", mkRow "d2" "t55" "record" "",
   mkRow "d3" "t65" "announcement" "irc_set"]

/-- Date parser for the C2 counterexample (four increasing dates). -/
def c2Dp : String → Option Int := fun s =>
  if s = "e1" then some 10 else if s = "e2" then some 20
  else if s = "e3" then some 30 else if s = "e4" then some 40 else none

/-- Duration parser for the C2 counterexample (70 s, 50 s, 60 s, 100 s). -/
def c2Tp : String → Option ℚ := fun s =>
  if s = "u70" then some 70 else if s = "u50" then some 50
  else if s = "u60" then some 60 else if s = "u100" then some 100 else none

/-- The C2 counterexample rows: 70 s, then an improvement to 50 s, then
two wipe boundaries at 60 s and 100 s (all evidence `record`). -/
def c2Rows : List CsvRow :=
  [mkRow "e1" "u70" "record" "", mkRow "e2" "u50" "record" "",
   mkRow "e3" "u60" "record" "", mkRow "e4" "u100" "record" ""]

/-- The first emitted point of the C2 counterexample timeline (70 s,
wiped, not a boundary). -/
def c2A : TimelinePoint :=
  ⟨⟨mkRow "e1" "u70" "record" "", 0, 10, 70⟩, true, false⟩

/-- The third emitted point of the C2 counterexample timeline (60 s,
itself wiped by the later 100 s boundary, and a wipe boundary). -/
def c2B : TimelinePoint :=
  ⟨⟨mkRow "e3" "u60" "record" "", 2, 30, 60⟩, true, true⟩

/-! ### Claim C1 -/

/-- C1 (counterexample): on the scenario rows
`[(d1,60s,record), (d2,55s,record), (d3,65s,announcement/irc_set)]` the
reconstructor emits all three points, the third with
`wipedBoundary = true` and the second with `wiped = true` — but the
first point (60 s) gets `wiped = true` as well (60 < 65 − ε in the
backward pass), contradicting the claim's `wiped = false` for it. -/
theorem C1_counterexample :
    (timeline c1Dp c1Tp c1Rows).map
        (fun p => (p.point.recordSeconds, p.wiped, p.wipedBoundary))
      = [(60, true, false), (55, true, false), (65, false, true)] := by
  decide

/-- C1 (amended): for the input row sequence
`[(d1,60s,record), (d2,55s,record), (d3,65s,announcement/irc_set)]` the
Timeline Reconstructor emits all three rows as Timeline Points; the
third point has `wipedBoundary = true`; after the backward annotation
pass the second point (55 s) has `wiped = true`, and the first point
(60 s) also has `wiped = true`, because the backward pass compares every
earlier point against the maximum wipe-boundary time (65 s) regardless
of when the point was emitted. -/
theorem C1_amended :
    (timeline c1Dp c1Tp c1Rows).length = 3 ∧
    ((timeline c1Dp c1Tp c1Rows).map TimelinePoint.wipedBoundary = [false, false, true]) ∧
    ((timeline c1Dp c1Tp c1Rows).map TimelinePoint.wiped = [true, true, false]) ∧
    ((timeline c1Dp c1Tp c1Rows).map (fun p => p.point.recordSeconds) = [60, 55, 65]) := by
  refine ⟨by decide, by decide, by decide, by decide⟩

/-! ### Claim C2 -/

/-- C2 (counterexample): in the emitted sequence for the rows
`[70s, 50s, 60s(record), 100s(record)]` the first point (70 s) is wiped
and the third point (60 s) is a wipe boundary occurring later, yet
`70 < 60` fails — so the claimed universal monotonicity between every
wiped point and every later boundary is false on the code. -/
theorem C2_counterexample :
    List.Sublist [c2A, c2B] (timeline c2Dp c2Tp c2Rows) ∧
    c2B.wipedBoundary = true ∧ c2A.wiped = true ∧
    ¬ c2A.point.recordSeconds < c2B.point.recordSeconds := by
  refine ⟨by decide, by decide, by decide, by decide⟩

/-! ### Claim C3 -/

/-- C3: in the forward pass, a subsequent row whose time is not a strict
improvement over the current best (beyond the epsilon tolerance) is
emitted if and only if it is a wipe-boundary trigger (evidence `record`,
or `announcement` with source `irc_set`) whose time is strictly worse
than current-best beyond the tolerance; it is then emitted with
`wipedBoundary = true` and the current best updates to its worse time,
and every other non-improving row is dropped. -/
theorem C3_nonimproving_emission (current : ℚ) (p : DataPoint) (rest : List DataPoint)
    (h : ¬ p.recordSeconds < current - epsilon) :
    forwardPass (some current) (p :: rest) =
      if isWipeBoundaryTrigger p.row ∧ p.recordSeconds > current + epsilon then
        ⟨p, false, true⟩ :: forwardPass (some p.recordSeconds) rest
      else forwardPass (some current) rest := by
  simp only [forwardPass, if_neg h]

/-- The single data point used to instantiate `C3_nonimproving_emission`. -/
def c3Point : DataPoint := ⟨mkRow "dx" "tx" "record" "", 0, 1, 60⟩

/-- C3 (witness): instantiating the step characterisation at
current-best 50 s and a non-improving `record` row at 60 s. -/
theorem C3_witness : forwardPass (some 50) [c3Point] = [⟨c3Point, false, true⟩] :=
  (C3_nonimproving_emission 50 c3Point [] (by decide)).trans (by decide)

/-! ### Helper lemmas about the reconstructor passes -/

/-- Forgetting the annotation flags. -/
def eraseWiped (p : TimelinePoint) : TimelinePoint := ⟨p.point, false, p.wipedBoundary⟩

lemma forwardPass_sublist (cur : Option ℚ) (l : List DataPoint) :
    List.Sublist ((forwardPass cur l).map TimelinePoint.point) l := by
  induction l generalizing cur with
  | nil => cases cur <;> simp [forwardPass]
  | cons p rest ih =>
    cases cur with
    | none =>
      simpa [forwardPass] using List.Sublist.cons₂ p (ih (some p.recordSeconds))
    | some current =>
      by_cases h1 : p.recordSeconds < current - epsilon
      · simpa [forwardPass, h1] using List.Sublist.cons₂ p (ih (some p.recordSeconds))
      · by_cases h2 : isWipeBoundaryTrigger p.row ∧ p.recordSeconds > current + epsilon
        · simpa [forwardPass, h1, h2] using List.Sublist.cons₂ p (ih (some p.recordSeconds))
        · simpa [forwardPass, h1, h2] using List.Sublist.cons p (ih (some current))

lemma backwardPass_map_point (l : List TimelinePoint) :
    ((backwardPass l).2).map TimelinePoint.point = l.map TimelinePoint.point := by
  induction l with
  | nil => simp [backwardPass]
  | cons p rest ih => simp [backwardPass, ih]

lemma backwardPass_erase_input (l : List TimelinePoint) :
    backwardPass (l.map eraseWiped) = backwardPass l := by
  induction l with
  | nil => rfl
  | cons p rest ih => simp [backwardPass, eraseWiped, ih]

lemma forwardPass_all_erased (cur : Option ℚ) (l : List DataPoint) :
    (forwardPass cur l).map eraseWiped = forwardPass cur l := by
  induction l generalizing cur with
  | nil => cases cur <;> simp [forwardPass]
  | cons p rest ih =>
    cases cur with
    | none => simp [forwardPass, eraseWiped, ih]
    | some current =>
      by_cases h1 : p.recordSeconds < current - epsilon
      · simp [forwardPass, h1, eraseWiped, ih]
      · by_cases h2 : isWipeBoundaryTrigger p.row ∧ p.recordSeconds > current + epsilon
        · simp [forwardPass, h1, h2, eraseWiped, ih]
        · simp [forwardPass, h1, h2, ih]

lemma forwardPass_idem (cur : Option ℚ) (l : List DataPoint) :
    forwardPass cur ((forwardPass cur l).map TimelinePoint.point) = forwardPass cur l := by
  induction l generalizing cur with
  | nil => cases cur <;> simp [forwardPass]
  | cons p rest ih =>
    cases cur with
    | none =>
      simp only [forwardPass, List.map]
      exact congrArg _ (ih (some p.recordSeconds))
    | some current =>
      by_cases h1 : p.recordSeconds < current - epsilon
      · simp only [forwardPass, List.map, if_pos h1]
        exact congrArg _ (ih (some p.recordSeconds))
      · by_cases h2 : isWipeBoundaryTrigger p.row ∧ p.recordSeconds > current + epsilon
        · simp only [forwardPass, List.map, if_neg h1, if_pos h2]
          exact congrArg _ (ih (some p.recordSeconds))
        · simp only [forwardPass, if_neg h1, if_neg h2]
          exact ih (some current)

lemma sorted_sortPoints (l : List DataPoint) : List.Sorted pointLe (sortPoints l) :=
  List.sorted_insertionSort pointLe l

/-! ### Claim C4 -/

/-- C4: the Timeline Reconstructor is idempotent — feeding its own
output (the underlying data points of the emitted Timeline Points) back
in as input reproduces exactly the same sequence with the same `wiped`
and `wipedBoundary` flags, and running it twice on the same input gives
identical output (it is a pure function). -/
theorem C4_idempotent (l : List DataPoint) :
    reconstructTimeline ((reconstructTimeline l).map TimelinePoint.point)
        = reconstructTimeline l ∧
    reconstructTimeline l = reconstructTimeline l := by
  refine ⟨?_, rfl⟩
  unfold reconstructTimeline
  rw [backwardPass_map_point]
  have hsorted : List.Sorted pointLe
      ((forwardPass none (sortPoints l)).map TimelinePoint.point) :=
    List.Pairwise.sublist (forwardPass_sublist none (sortPoints l)) (sorted_sortPoints l)
  have hsort_eq : sortPoints ((forwardPass none (sortPoints l)).map TimelinePoint.point)
      = (forwardPass none (sortPoints l)).map TimelinePoint.point :=
    List.Sorted.insertionSort_eq hsorted
  rw [hsort_eq, forwardPass_idem]

/-! ### Helper lemmas about point construction -/

lemma mkPointsAux_bound (dp : String → Option Int) (tp : String → Option ℚ) :
    ∀ (rows : List CsvRow) (i : Nat), ∀ p ∈ mkPointsAux dp tp i rows, i ≤ p.rowIndex := by
  intro rows
  induction rows with
  | nil => intro i p hp; simp [mkPointsAux] at hp
  | cons row rest ih =>
    intro i p hp
    unfold mkPointsAux at hp
    cases hd : dp row.date with
    | none =>
      rw [hd] at hp
      exact le_trans (Nat.le_succ i) (ih (i + 1) p hp)
    | some d =>
      cases ht : tp row.record_time with
      | none =>
        rw [hd, ht] at hp
        exact le_trans (Nat.le_succ i) (ih (i + 1) p hp)
      | some s =>
        rw [hd, ht] at hp
        dsimp only at hp
        by_cases h0 : d = 0
        · rw [if_pos h0] at hp
          exact le_trans (Nat.le_succ i) (ih (i + 1) p hp)
        · rw [if_neg h0] at hp
          rcases List.mem_cons.mp hp with rfl | hmem
          · exact le_refl i
          · exact le_trans (Nat.le_succ i) (ih (i + 1) p hmem)

lemma mkPointsAux_pairwise (dp : String → Option Int) (tp : String → Option ℚ) :
    ∀ (rows : List CsvRow) (i : Nat),
      List.Pairwise (fun a b : DataPoint => a.rowIndex < b.rowIndex)
        (mkPointsAux dp tp i rows) := by
  intro rows
  induction rows with
  | nil => intro i; simp [mkPointsAux]
  | cons row rest ih =>
    intro i
    unfold mkPointsAux
    cases hd : dp row.date with
    | none => exact ih (i + 1)
    | some d =>
      cases ht : tp row.record_time with
      | none => exact ih (i + 1)
      | some s =>
        dsimp only
        by_cases h0 : d = 0
        · rw [if_pos h0]
          exact ih (i + 1)
        · rw [if_neg h0]
          refine List.Pairwise.cons ?_ (ih (i + 1))
          intro q hq
          exact lt_of_lt_of_le (Nat.lt_succ_self i) (mkPointsAux_bound dp tp rest (i + 1) q hq)

lemma mkPointsAux_date (dp : String → Option Int) (tp : String → Option ℚ) :
    ∀ (rows : List CsvRow) (i : Nat), ∀ p ∈ mkPointsAux dp tp i rows,
      dp p.row.date = some p.dateValue ∧ p.dateValue ≠ 0 := by
  intro rows
  induction rows with
  | nil => intro i p hp; simp [mkPointsAux] at hp
  | cons row rest ih =>
    intro i p hp
    unfold mkPointsAux at hp
    cases hd : dp row.date with
    | none =>
      rw [hd] at hp
      exact ih (i + 1) p hp
    | some d =>
      cases ht : tp row.record_time with
      | none =>
        rw [hd, ht] at hp
        exact ih (i + 1) p hp
      | some s =>
        rw [hd, ht] at hp
        dsimp only at hp
        by_cases h0 : d = 0
        · rw [if_pos h0] at hp
          exact ih (i + 1) p hp
        · rw [if_neg h0] at hp
          rcases List.mem_cons.mp hp with rfl | hmem
          · exact ⟨hd, h0⟩
          · exact ih (i + 1) p hmem

lemma timeline_point_mem (dp : String → Option Int) (tp : String → Option ℚ)
    (rows : List CsvRow) (p : TimelinePoint) (h : p ∈ timeline dp tp rows) :
    p.point ∈ mkPoints dp tp rows := by
  unfold timeline reconstructTimeline at h
  have h1 : p.point ∈ ((backwardPass (forwardPass none
      (sortPoints (mkPoints dp tp rows)))).2).map TimelinePoint.point :=
    List.mem_map_of_mem _ h
  rw [backwardPass_map_point] at h1
  have h2 : p.point ∈ sortPoints (mkPoints dp tp rows) :=
    (forwardPass_sublist none _).subset h1
  exact (List.perm_insertionSort pointLe _).mem_iff.mp h2

/-! ### Claim C5 -/

/-- C5: for every filtered input row sequence (and any behaviour of the
date/duration parsers), the emitted Timeline Point sequence is
non-decreasing in `dateValue`, and any two points with equal `dateValue`
appear in strictly ascending `rowIndex` (original decode order), giving
a deterministic total order. -/
theorem C5_sorted (dp : String → Option Int) (tp : String → Option ℚ)
    (rows : List CsvRow) :
    List.Pairwise (fun a b : TimelinePoint =>
        a.point.dateValue ≤ b.point.dateValue ∧
        (a.point.dateValue = b.point.dateValue → a.point.rowIndex < b.point.rowIndex))
      (timeline dp tp rows) := by
  set m := mkPoints dp tp rows with hm
  have h1 : List.Pairwise pointLe (sortPoints m) := sorted_sortPoints m
  have hne : List.Pairwise (fun a b : DataPoint => a.rowIndex ≠ b.rowIndex) (sortPoints m) := by
    have hlt : List.Pairwise (fun a b : DataPoint => a.rowIndex < b.rowIndex) m :=
      mkPointsAux_pairwise dp tp rows 0
    have hmne : List.Pairwise (fun a b : DataPoint => a.rowIndex ≠ b.rowIndex) m :=
      hlt.imp (fun h => Nat.ne_of_lt h)
    exact (List.Perm.pairwise_iff (fun h => h.symm)
      (List.perm_insertionSort pointLe m)).mpr hmne
  have hQ : List.Pairwise (fun a b : DataPoint =>
      a.dateValue ≤ b.dateValue ∧ (a.dateValue = b.dateValue → a.rowIndex < b.rowIndex))
      (sortPoints m) := by
    refine (h1.and hne).imp ?_
    rintro a b ⟨hle, hne2⟩
    rcases hle with hlt | ⟨heq, hri⟩
    · exact ⟨le_of_lt hlt, fun e => absurd e (ne_of_lt hlt)⟩
    · exact ⟨le_of_eq heq, fun _ => lt_of_le_of_ne hri hne2⟩
  have hfwd : List.Pairwise (fun a b : DataPoint =>
      a.dateValue ≤ b.dateValue ∧ (a.dateValue = b.dateValue → a.rowIndex < b.rowIndex))
      ((forwardPass none (sortPoints m)).map TimelinePoint.point) :=
    List.Pairwise.sublist (forwardPass_sublist none (sortPoints m)) hQ
  have hfinal : List.Pairwise (fun a b : DataPoint =>
      a.dateValue ≤ b.dateValue ∧ (a.dateValue = b.dateValue → a.rowIndex < b.rowIndex))
      ((timeline dp tp rows).map TimelinePoint.point) := by
    unfold timeline reconstructTimeline
    rw [backwardPass_map_point]
    exact hfwd
  exact List.pairwise_map.mp hfinal

/-! ### Claim C9 -/

lemma not_lt_self_sub_epsilon (x : ℚ) : ¬ x < x - epsilon := by
  intro h
  have he : (0 : ℚ) < epsilon := by norm_num [epsilon]
  have : x - epsilon < x := sub_lt_self x he
  exact absurd h (not_lt.2 (le_of_lt this))

lemma backwardPass_last_not_wiped :
    ∀ (l : List TimelinePoint) (p : TimelinePoint),
      ((backwardPass l).2).getLast? = some p → p.wiped = false := by
  intro l
  induction l with
  | nil => intro p h; simp [backwardPass] at h
  | cons q rest ih =>
    intro p h
    cases rest with
    | nil =>
      by_cases hb : q.wipedBoundary
      · simp [backwardPass, hb] at h
        rw [← h]
        simp [decide_eq_false (not_lt_self_sub_epsilon q.point.recordSeconds)]
      · simp [backwardPass, hb] at h
        rw [← h]
    | cons r rest2 =>
      rw [show (backwardPass (q :: r :: rest2)).2
          = (backwardPass (q :: r :: rest2)).2.head?.getD q :: (backwardPass (r :: rest2)).2
          from rfl] at h
      obtain ⟨y, ys, hys⟩ : ∃ y ys, (backwardPass (r :: rest2)).2 = y :: ys := ⟨_, _, rfl⟩
      rw [hys, List.getLast?_cons_cons, ← hys] at h
      exact ih p h

/-- C9: whenever the reconstructor's output is non-empty, its last
Timeline Point has `wiped = false` — the backward pass can never strike
through the final point, so the "current record" read from the last
point is never a wiped entry. -/
theorem C9_last_not_wiped (dp : String → Option Int) (tp : String → Option ℚ)
    (rows : List CsvRow) (p : TimelinePoint)
    (h : (timeline dp tp rows).getLast? = some p) : p.wiped = false :=
  backwardPass_last_not_wiped
    (forwardPass none (sortPoints (mkPoints dp tp rows))) p h

/-- Constant date parser used by concrete witnesses. -/
def constDp : String → Option Int := fun _ => some 1

/-- Constant duration parser used by concrete witnesses. -/
def constTp : String → Option ℚ := fun _ => some 10

/-- C9 (witness): the theorem applied to a concrete one-row input whose
timeline ends in the evaluated point. -/
theorem C9_witness :
    (⟨⟨mkRow "d" "t" "record" "", 0, 1, 10⟩, false, false⟩ : TimelinePoint).wiped = false :=
  C9_last_not_wiped constDp constTp [mkRow "d" "t" "record" ""]
    ⟨⟨mkRow "d" "t" "record" "", 0, 1, 10⟩, false, false⟩ (by decide)

/-! ### Claim C10 -/

lemma mkPointsAux_zero_guard (dp : String → Option Int) (tp : String → Option ℚ) :
    ∀ (rows : List CsvRow) (i : Nat),
      mkPointsAux (fun s => match dp s with
        | none => none
        | some d => if d = 0 then none else some d) tp i rows
      = mkPointsAux dp tp i rows := by
  intro rows
  induction rows with
  | nil => intro i; rfl
  | cons row rest ih =>
    intro i
    unfold mkPointsAux
    cases hd : dp row.date with
    | none =>
      simp only [hd]
      exact ih (i + 1)
    | some d =>
      cases ht : tp row.record_time with
      | none =>
        by_cases h0 : d = 0
        · simp only [hd, ht, if_pos h0]
          exact ih (i + 1)
        · simp only [hd, ht, if_neg h0]
          exact ih (i + 1)
      | some s =>
        by_cases h0 : d = 0
        · simp only [hd, ht, if_pos h0]
          exact ih (i + 1)
        · simp only [hd, ht, if_neg h0]
          rw [ih (i + 1)]

/-- C10: a row whose date string parses to timestamp `0` (the Unix
epoch) is excluded from the timeline exactly as if the date were
unparseable — replacing every parse result `some 0` by a parse failure
changes nothing — and consequently every emitted point carries a
parseable, non-zero `dateValue`, so such a row never becomes a Timeline
Point. -/
theorem C10_epoch_guard (dp : String → Option Int) (tp : String → Option ℚ)
    (rows : List CsvRow) :
    timeline (fun s => match dp s with
        | none => none
        | some d => if d = 0 then none else some d) tp rows
      = timeline dp tp rows ∧
    ∀ p ∈ timeline dp tp rows,
      dp p.point.row.date = some p.point.dateValue ∧ p.point.dateValue ≠ 0 := by
  constructor
  · unfold timeline mkPoints
    rw [mkPointsAux_zero_guard dp tp rows 0]
  · intro p hp
    exact mkPointsAux_date dp tp rows 0 p.point (timeline_point_mem dp tp rows p hp)

/-- Date parser for the C10 witness: one epoch date, one valid date. -/
def c10Dp : String → Option Int := fun s =>
  if s = "z" then some 0 else if s = "k" then some 5 else none

/-- Duration parser for the C10 witness. -/
def c10Tp : String → Option ℚ := fun _ => some 30

/-- Rows for the C10 witness: an epoch-dated row and a valid row. -/
def c10Rows : List CsvRow :=
  [mkRow "z" "t" "record" "", mkRow "k" "t" "record" ""]

/-- The surviving point of the C10 witness timeline. -/
def c10P : TimelinePoint := ⟨⟨mkRow "k" "t" "record" "", 1, 5, 30⟩, false, false⟩

/-- C10 (witness): the theorem applied to a concrete input containing
an epoch-dated row, with the membership hypothesis discharged on the
surviving point. -/
theorem C10_witness :
    timeline (fun s => match c10Dp s with
        | none => none
        | some d => if d = 0 then none else some d) c10Tp c10Rows
      = timeline c10Dp c10Tp c10Rows ∧
    (c10Dp c10P.point.row.date = some c10P.point.dateValue ∧ c10P.point.dateValue ≠ 0) :=
  ⟨(C10_epoch_guard c10Dp c10Tp c10Rows).1,
   (C10_epoch_guard c10Dp c10Tp c10Rows).2 c10P (by decide)⟩

/-! ### Claim C2 (amended form) -/

lemma backwardPass_fst (p : TimelinePoint) (rest : List TimelinePoint) :
    (backwardPass (p :: rest)).1 =
      if p.wipedBoundary then
        some (match (backwardPass rest).1 with
              | none => p.point.recordSeconds
              | some v => max v p.point.recordSeconds)
      else (backwardPass rest).1 := rfl

lemma backwardPass_snd (p : TimelinePoint) (rest : List TimelinePoint) :
    (backwardPass (p :: rest)).2 =
      ⟨p.point,
        (match (backwardPass (p :: rest)).1 with
         | none => false
         | some v => decide (p.point.recordSeconds < v - epsilon)),
        p.wipedBoundary⟩ :: (backwardPass rest).2 := rfl

/-- The head element produced by the backward pass on `p :: rest`. -/
def bwHead (p : TimelinePoint) (rest : List TimelinePoint) : TimelinePoint :=
  ⟨p.point,
    (match (backwardPass (p :: rest)).1 with
     | none => false
     | some v => decide (p.point.recordSeconds < v - epsilon)),
    p.wipedBoundary⟩

lemma backwardPass_snd2 (p : TimelinePoint) (rest : List TimelinePoint) :
    (backwardPass (p :: rest)).2 = bwHead p rest :: (backwardPass rest).2 := rfl

lemma backwardPass_max_mem :
    ∀ (l : List TimelinePoint) (v : ℚ), (backwardPass l).1 = some v →
      ∃ B ∈ (backwardPass l).2, B.wipedBoundary = true ∧ B.point.recordSeconds = v := by
  intro l
  induction l with
  | nil => intro v h; simp [backwardPass] at h
  | cons p rest ih =>
    intro v h
    rw [backwardPass_fst] at h
    by_cases hb : p.wipedBoundary
    · rw [if_pos hb] at h
      cases hm : (backwardPass rest).1 with
      | none =>
        rw [hm] at h
        simp only [Option.some.injEq] at h
        refine ⟨bwHead p rest, ?_, hb, h⟩
        rw [backwardPass_snd2]
        exact List.mem_cons_self _ _
      | some v0 =>
        rw [hm] at h
        simp only [Option.some.injEq] at h
        rcases max_choice v0 p.point.recordSeconds with hmax | hmax
        · rw [hmax] at h
          obtain ⟨B, hBmem, hBb, hBv⟩ := ih v0 hm
          refine ⟨B, ?_, hBb, by rw [hBv, h]⟩
          rw [backwardPass_snd]
          exact List.mem_cons_of_mem _ hBmem
        · rw [hmax] at h
          refine ⟨bwHead p rest, ?_, hb, h⟩
          rw [backwardPass_snd2]
          exact List.mem_cons_self _ _
    · rw [if_neg hb] at h
      obtain ⟨B, hBmem, hBb, hBv⟩ := ih v h
      refine ⟨B, ?_, hBb, hBv⟩
      rw [backwardPass_snd]
      exact List.mem_cons_of_mem _ hBmem

lemma backwardPass_wiped_has_later_boundary :
    ∀ (l : List TimelinePoint) (A : TimelinePoint),
      A ∈ (backwardPass l).2 → A.wiped = true →
      ∃ B, List.Sublist [A, B] (backwardPass l).2 ∧ B.wipedBoundary = true ∧
        A.point.recordSeconds < B.point.recordSeconds := by
  intro l
  induction l with
  | nil => intro A hA; simp [backwardPass] at hA
  | cons p rest ih =>
    intro A hA hw
    rw [backwardPass_snd] at hA
    rcases List.mem_cons.mp hA with rfl | hmem
    · cases hm' : (backwardPass (p :: rest)).1 with
      | none =>
        rw [hm'] at hw
        simp at hw
      | some v =>
        rw [hm'] at hw
        simp only [decide_eq_true_eq] at hw
        have hlt : p.point.recordSeconds < v - epsilon := hw
        have hlt2 : p.point.recordSeconds < v := by
          have he : (0 : ℚ) < epsilon := by norm_num [epsilon]
          linarith
        have hmB := hm'
        rw [backwardPass_fst] at hmB
        have hexists : ∃ B ∈ (backwardPass rest).2,
            B.wipedBoundary = true ∧ B.point.recordSeconds = v := by
          by_cases hb : p.wipedBoundary
          · rw [if_pos hb] at hmB
            cases hm : (backwardPass rest).1 with
            | none =>
              rw [hm] at hmB
              simp only [Option.some.injEq] at hmB
              rw [← hmB] at hlt
              exact absurd hlt (not_lt_self_sub_epsilon _)
            | some v0 =>
              rw [hm] at hmB
              simp only [Option.some.injEq] at hmB
              rcases max_choice v0 p.point.recordSeconds with hmax | hmax
              · rw [hmax] at hmB
                rw [hmB] at hm
                exact backwardPass_max_mem rest v hm
              · rw [hmax] at hmB
                rw [← hmB] at hlt
                exact absurd hlt (not_lt_self_sub_epsilon _)
          · rw [if_neg hb] at hmB
            exact backwardPass_max_mem rest v hmB
        obtain ⟨B, hBmem, hBb, hBv⟩ := hexists
        refine ⟨B, ?_, hBb, by rw [hBv]; exact hlt2⟩
        rw [backwardPass_snd, hm']
        exact List.Sublist.cons₂ _ (List.singleton_sublist.mpr hBmem)
    · obtain ⟨B, hBsub, hBb, hBv⟩ := ih A hmem hw
      refine ⟨B, ?_, hBb, hBv⟩
      rw [backwardPass_snd]
      exact List.Sublist.cons _ hBsub

/-- C2 (amended): after the backward annotation pass, every emitted
point A with `wiped = true` has some later emitted point B with
`wipedBoundary = true` whose `recordSeconds` is strictly greater than
A's (the universal form over every later boundary fails, see the
counterexample). -/
theorem C2_amended (dp : String → Option Int) (tp : String → Option ℚ)
    (rows : List CsvRow) (A : TimelinePoint)
    (hA : A ∈ timeline dp tp rows) (hw : A.wiped = true) :
    ∃ B, List.Sublist [A, B] (timeline dp tp rows) ∧ B.wipedBoundary = true ∧
      A.point.recordSeconds < B.point.recordSeconds :=
  backwardPass_wiped_has_later_boundary
    (forwardPass none (sortPoints (mkPoints dp tp rows))) A hA hw

/-- C2 (amended, witness): the amended statement applied to the first
(wiped, 70 s) point of the concrete counterexample timeline. -/
theorem C2_amended_witness :
    ∃ B, List.Sublist [c2A, B] (timeline c2Dp c2Tp c2Rows) ∧ B.wipedBoundary = true ∧
      c2A.point.recordSeconds < B.point.recordSeconds :=
  C2_amended c2Dp c2Tp c2Rows c2A (by decide) (by decide)

/-! ### Claim C7 -/

/-- C7: the Segment Classifier maps `"C3 - Rooftop First"` to the zone
descriptor `{id := "segment-3", label := "C3 - Rooftop",
kind := segment, order := 3}`, stripping the trailing literal suffix
`First`; and it is total: every input string maps to exactly one
outcome (a zone descriptor or no zone). -/
theorem C7_segment_classifier :
    getZoneInfo "C3 - Rooftop First"
      = some { id := "segment-3", label := "C3 - Rooftop",
               kind := ZoneKind.segment, order := 3 } ∧
    ∀ s : String, ∃! r : Option ZoneInfo, getZoneInfo s = r :=
  ⟨by decide, fun s => ⟨getZoneInfo s, rfl, fun _ h => h.symm⟩⟩

/-! ### Claim C8 -/

lemma parseCsvRowsAux_length_le_one (text : List Char) (inQuotes : Bool)
    (field : List Char) (row : List (List Char)) :
    '\n' ∉ text → (parseCsvRowsAux text inQuotes field row).length ≤ 1 := by
  induction text, inQuotes, field, row using parseCsvRowsAux.induct <;> intro hnl
  all_goals simp only [parseCsvRowsAux]
  all_goals try split
  all_goals try split
  all_goals simp_all

lemma parseCsvRowsAux_content (text : List Char) (inQuotes : Bool)
    (field : List Char) (row : List (List Char)) :
    ∀ r ∈ parseCsvRowsAux text inQuotes field row, ∃ cell ∈ r, trimChars cell ≠ [] := by
  induction text, inQuotes, field, row using parseCsvRowsAux.induct <;> intro r hr
  all_goals simp only [parseCsvRowsAux] at hr
  all_goals try split at hr
  all_goals try split at hr
  all_goals simp_all [rowHasContent]
  all_goals aesop

/-- C8: the CSV Decoder never raises — it is a total function; an input
with zero or one line (no newline character) decodes to an empty row
sequence; every emitted physical row has at least one cell that trims
to a nonempty string (a line solely of empty fields yields no row); and
an unterminated quote at end-of-input acts as an implicit close, with
the final partial record still emitted. -/
theorem C8_csv_decoder :
    (∀ t : String, '\n' ∉ t.data → parseCsv t = []) ∧
    (∀ t : String, ∀ r ∈ parseCsvRows t, ∃ cell ∈ r, trimChars cell ≠ []) ∧
    parseCsvRows "a,\"b,c\nd" = [[['a'], ['b', ',', 'c', '\n', 'd']]] := by
  refine ⟨?_, ?_, by decide⟩
  · intro t hnl
    unfold parseCsv parseCsvRows
    dsimp only
    rw [if_pos (parseCsvRowsAux_length_le_one t.data false [] [] hnl)]
  · intro t r hr
    exact parseCsvRowsAux_content t.data false [] [] r hr

/-- C8 (witness): the no-newline case applied to the concrete text
`"a,b"`, and the nonempty-cell invariant applied to the first row of
the concrete text `"x,y"` followed by a newline and `"q,w"`. -/
theorem C8_witness :
    parseCsv "a,b" = [] ∧ (∃ cell ∈ [['x'], ['y']], trimChars cell ≠ []) :=
  ⟨C8_csv_decoder.1 "a,b" (by decide),
   C8_csv_decoder.2.1 "x,y\nq,w" [['x'], ['y']] (by decide)⟩

/-! ### Helper lemmas for the identity resolver -/

lemma head_dropWhile_false (p : Char → Bool) :
    ∀ (l : List Char) (c : Char), (l.dropWhile p).head? = some c → p c = false := by
  intro l
  induction l with
  | nil => intro c h; simp at h
  | cons a as ih =>
    intro c h
    rw [List.dropWhile_cons] at h
    by_cases hp : p a = true
    · rw [if_pos hp] at h
      exact ih c h
    · rw [if_neg hp] at h
      simp only [List.head?_cons, Option.some.injEq] at h
      rw [← h]
      exact Bool.eq_false_iff.mpr hp

lemma mem_of_getLast?_eq : ∀ (l : List Char) (c : Char), l.getLast? = some c → c ∈ l := by
  intro l
  induction l with
  | nil => intro c h; simp at h
  | cons a as ih =>
    intro c h
    cases as with
    | nil =>
      simp only [List.getLast?_singleton, Option.some.injEq] at h
      rw [← h]
      exact List.mem_singleton_self a
    | cons b bs =>
      rw [List.getLast?_cons_cons] at h
      exact List.mem_cons_of_mem _ (ih c h)

lemma trimChars_eq_self {l : List Char}
    (h1 : ∀ c, l.head? = some c → c.isWhitespace = false)
    (h2 : ∀ c, l.getLast? = some c → c.isWhitespace = false) :
    trimChars l = l := by
  unfold trimChars
  have hd : l.dropWhile Char.isWhitespace = l := by
    cases l with
    | nil => rfl
    | cons a as =>
      rw [List.dropWhile_cons, if_neg]
      rw [h1 a rfl]
      simp
  rw [hd]
  have hrev : l.reverse.dropWhile Char.isWhitespace = l.reverse := by
    cases hl : l.reverse with
    | nil => rfl
    | cons a as =>
      rw [List.dropWhile_cons, if_neg]
      have hlast : l.getLast? = some a := by
        rw [← List.head?_reverse, hl]
        rfl
      rw [h2 a hlast]
      simp
  rw [hrev, List.reverse_reverse]

lemma trimChars_idem (l : List Char) : trimChars (trimChars l) = trimChars l := by
  cases he : trimChars l with
  | nil => rfl
  | cons a as =>
    rw [← he]
    apply trimChars_eq_self
    · intro c hc
      unfold trimChars at hc
      rw [List.head?_reverse] at hc
      have hYlast : (List.dropWhile Char.isWhitespace l).reverse.getLast? = some c := by
        conv_lhs => rw [← List.takeWhile_append_dropWhile Char.isWhitespace
          (List.dropWhile Char.isWhitespace l).reverse]
        rw [List.getLast?_append, hc]
        rfl
      rw [List.getLast?_reverse] at hYlast
      exact head_dropWhile_false Char.isWhitespace _ c hYlast
    · intro c hc
      unfold trimChars at hc
      rw [List.getLast?_reverse] at hc
      exact head_dropWhile_false Char.isWhitespace _ c hc

lemma splitCh_ne_nil (sep : Char) : ∀ l : List Char, splitCh sep l ≠ [] := by
  intro l
  cases l with
  | nil => simp [splitCh]
  | cons c rest =>
    cases hsp : splitCh sep rest with
    | nil => simp [splitCh, hsp]
    | cons h t =>
      simp only [splitCh, hsp]
      split <;> simp

lemma splitCh_no_sep {sep : Char} : ∀ {l : List Char}, sep ∉ l → splitCh sep l = [l] := by
  intro l
  induction l with
  | nil => intro _; rfl
  | cons c rest ih =>
    intro h
    have hc : ¬c = sep := fun he => h (by rw [he]; exact List.mem_cons_self _ _)
    have hrest : sep ∉ rest := fun hm => h (List.mem_cons_of_mem _ hm)
    simp only [splitCh, ih hrest]
    rw [if_neg hc]

lemma splitCh_append_sep {sep : Char} (rest : List Char) :
    ∀ {x : List Char}, sep ∉ x → splitCh sep (x ++ sep :: rest) = x :: splitCh sep rest := by
  intro x
  induction x with
  | nil =>
    intro _
    have hstep : splitCh sep (([] : List Char) ++ sep :: rest)
        = match splitCh sep rest with
          | [] => [[]]
          | h :: t => if sep = sep then [] :: h :: t else (sep :: h) :: t := rfl
    rw [hstep]
    cases hsp : splitCh sep rest with
    | nil => exact absurd hsp (splitCh_ne_nil sep rest)
    | cons h t =>
      dsimp only
      rw [if_pos rfl]
  | cons c x ih =>
    intro h
    have hc : ¬c = sep := fun he => h (by rw [he]; exact List.mem_cons_self _ _)
    have hx : sep ∉ x := fun hm => h (List.mem_cons_of_mem _ hm)
    have hstep : splitCh sep ((c :: x) ++ sep :: rest)
        = match splitCh sep (x ++ sep :: rest) with
          | [] => [[]]
          | h :: t => if c = sep then [] :: h :: t else (c :: h) :: t := rfl
    rw [hstep, ih hx]
    dsimp only
    rw [if_neg hc]

lemma digit_not_ws {c : Char} (h : c.isDigit = true) : c.isWhitespace = false := by
  cases hw : c.isWhitespace
  · rfl
  · exfalso
    simp only [Char.isWhitespace, Bool.or_eq_true, decide_eq_true_eq] at hw
    rcases hw with ((rfl | rfl) | rfl) | rfl <;> simp [Char.isDigit] at h

lemma digit_not_colon {c : Char} (h : c.isDigit = true) : ¬c = ':' := by
  intro he
  rw [he] at h
  simp [Char.isDigit] at h

lemma parseSteamId64_steam_format (x y z : List Char) (s : String)
    (hx : ':' ∉ x) (hynil : y ≠ []) (hy : ∀ c ∈ y, c.isDigit = true)
    (hznil : z ≠ []) (hz : ∀ c ∈ z, c.isDigit = true)
    (hs : s.data = 'S' :: 'T' :: 'E' :: 'A' :: 'M' :: '_' :: (x ++ ':' :: (y ++ ':' :: z))) :
    parseSteamId64 s
      = some (Nat.repr (STEAM_ID64_BASE + digitsToNat z * 2 + digitsToNat y)) := by
  have hycolon : ':' ∉ y := fun hm => absurd (hy _ hm) (by decide)
  have hzcolon : ':' ∉ z := fun hm => absurd (hz _ hm) (by decide)
  have hznil2 : ∃ d, z.getLast? = some d := by
    cases hgl : z.getLast? with
    | none => exact absurd (List.getLast?_eq_none_iff.mp hgl) hznil
    | some d => exact ⟨d, rfl⟩
  obtain ⟨d, hd⟩ := hznil2
  have hhead : ∀ c, ('S' :: 'T' :: 'E' :: 'A' :: 'M' :: '_'
      :: (x ++ ':' :: (y ++ ':' :: z)) : List Char).head? = some c → c.isWhitespace = false := by
    intro c hc
    simp only [List.head?_cons, Option.some.injEq] at hc
    rw [← hc]
    decide
  have hlast : ∀ c, ('S' :: 'T' :: 'E' :: 'A' :: 'M' :: '_'
      :: (x ++ ':' :: (y ++ ':' :: z)) : List Char).getLast? = some c →
      c.isWhitespace = false := by
    intro c hc
    have hsplit : ('S' :: 'T' :: 'E' :: 'A' :: 'M' :: '_'
        :: (x ++ ':' :: (y ++ ':' :: z)) : List Char)
        = (('S' :: 'T' :: 'E' :: 'A' :: 'M' :: '_' :: []) ++ x ++ (':' :: y) ++ [':']) ++ z := by
      simp [List.append_assoc]
    rw [hsplit, List.getLast?_append, hd] at hc
    simp only [Option.or_some, Option.some.injEq] at hc
    rw [← hc]
    exact digit_not_ws (hz d (mem_of_getLast?_eq z d hd))
  have htrim : trimChars ('S' :: 'T' :: 'E' :: 'A' :: 'M' :: '_'
      :: (x ++ ':' :: (y ++ ':' :: z)) : List Char)
      = 'S' :: 'T' :: 'E' :: 'A' :: 'M' :: '_' :: (x ++ ':' :: (y ++ ':' :: z)) :=
    trimChars_eq_self hhead hlast
  have hne : ('S' :: 'T' :: 'E' :: 'A' :: 'M' :: '_'
      :: (x ++ ':' :: (y ++ ':' :: z)) : List Char) ≠ [] := by simp
  unfold parseSteamId64
  rw [hs, if_neg hne]
  dsimp only
  rw [htrim, if_neg hne]
  have hnorm : normalizeSteamId64Chars ('S' :: 'T' :: 'E' :: 'A' :: 'M' :: '_'
      :: (x ++ ':' :: (y ++ ':' :: z))) = none := by
    unfold normalizeSteamId64Chars
    rw [if_neg (by simp)]
    dsimp only
    rw [htrim]
    rw [if_neg (by simp)]
    rw [if_neg ?hcond]
    case hcond =>
      rintro ⟨-, -, hall⟩
      have := List.all_eq_true.mp hall 'S' (List.mem_cons_self _ _)
      exact absurd this (by decide)
  rw [hnorm]
  dsimp only
  rw [if_neg ?hu]
  case hu =>
    rintro ⟨h3, -⟩
    have : (['S', 'T', 'E'] : List Char) = ['[', 'U', ':'] := h3
    exact absurd this (by decide)
  dsimp only
  rw [if_pos (show ('S' :: 'T' :: 'E' :: 'A' :: 'M' :: '_'
      :: (x ++ ':' :: (y ++ ':' :: z)) : List Char).take 6 = ['S','T','E','A','M','_'] from rfl)]
  rw [show ('S' :: 'T' :: 'E' :: 'A' :: 'M' :: '_'
      :: (x ++ ':' :: (y ++ ':' :: z)) : List Char).drop 6 = x ++ ':' :: (y ++ ':' :: z) from rfl]
  rw [splitCh_append_sep _ hx, splitCh_append_sep _ hycolon, splitCh_no_sep hzcolon]
  dsimp only
  have hydig : isDigits y = true := by
    unfold isDigits
    rw [List.all_eq_true.mpr hy, List.isEmpty_eq_false.mpr hynil]
    rfl
  have hzdig : isDigits z = true := by
    unfold isDigits
    rw [List.all_eq_true.mpr hz, List.isEmpty_eq_false.mpr hznil]
    rfl
  rw [if_pos ⟨hydig, hzdig⟩]

lemma parseSteamId64_none (s : String)
    (h16 : ¬(16 ≤ (trimChars s.data).length ∧ (trimChars s.data).length ≤ 17 ∧
        (trimChars s.data).all Char.isDigit = true))
    (hU : (trimChars s.data).take 3 ≠ ['[', 'U', ':'])
    (hS : (trimChars s.data).take 6 ≠ ['S', 'T', 'E', 'A', 'M', '_']) :
    parseSteamId64 s = none := by
  unfold parseSteamId64
  by_cases hd : s.data = []
  · rw [if_pos hd]
  · rw [if_neg hd]
    dsimp only
    by_cases ht : trimChars s.data = []
    · rw [if_pos ht]
    · rw [if_neg ht]
      have hnorm : normalizeSteamId64Chars (trimChars s.data) = none := by
        unfold normalizeSteamId64Chars
        rw [if_neg (by simp [List.isEmpty_eq_false.mpr ht])]
        dsimp only
        rw [trimChars_idem]
        rw [if_neg (by simp [List.isEmpty_eq_false.mpr ht])]
        rw [if_neg h16]
      rw [hnorm]
      dsimp only
      rw [if_neg (fun hc => hU hc.1)]
      dsimp only
      rw [if_neg hS]

/-! ### Claim C6 -/

/-- C6: the Identity Resolver maps `"STEAM_0:1:12345"` to the canonical
id `76561197960265728 + 12345*2 + 1 = 76561197960290419`; in general a
colon-delimited `STEAM_X:Y:Z` identifier with numeric `Y` and `Z` maps
to `offset + Z*2 + Y`; and when no supported encoding applies (not a
16–17 digit value, not `[U:...]`-shaped, not `STEAM_`-prefixed) it
returns no match (`none`). -/
theorem C6_identity_resolver :
    parseSteamId64 "STEAM_0:1:12345" = some "76561197960290419" ∧
    (∀ x y z : String, ':' ∉ x.data →
      y.data ≠ [] → (∀ c ∈ y.data, c.isDigit = true) →
      z.data ≠ [] → (∀ c ∈ z.data, c.isDigit = true) →
      parseSteamId64 ("STEAM_" ++ x ++ ":" ++ y ++ ":" ++ z)
        = some (Nat.repr (STEAM_ID64_BASE + digitsToNat z.data * 2 + digitsToNat y.data))) ∧
    (∀ s : String,
      ¬(16 ≤ (trimChars s.data).length ∧ (trimChars s.data).length ≤ 17 ∧
          (trimChars s.data).all Char.isDigit = true) →
      (trimChars s.data).take 3 ≠ ['[', 'U', ':'] →
      (trimChars s.data).take 6 ≠ ['S', 'T', 'E', 'A', 'M', '_'] →
      parseSteamId64 s = none) := by
  refine ⟨by decide, ?_, ?_⟩
  · intro x y z hx hynil hy hznil hz
    refine parseSteamId64_steam_format x.data y.data z.data _ hx hynil hy hznil hz ?_
    have h1 : ("STEAM_" : String).data = ['S', 'T', 'E', 'A', 'M', '_'] := rfl
    have h2 : (":" : String).data = [':'] := rfl
    simp [String.data_append, h1, h2]
  · intro s h16 hU hS
    exact parseSteamId64_none s h16 hU hS

/-- C6 (witness): the general `STEAM_X:Y:Z` formula applied at
`X = "0"`, `Y = "1"`, `Z = "12345"`, and the no-match case applied to a
string matching no supported encoding. -/
theorem C6_witness :
    parseSteamId64 ("STEAM_" ++ "0" ++ ":" ++ "1" ++ ":" ++ "12345")
      = some (Nat.repr (STEAM_ID64_BASE + digitsToNat "12345".data * 2 + digitsToNat "1".data)) ∧
    parseSteamId64 "nonsense" = none :=
  ⟨C6_identity_resolver.2.1 "0" "1" "12345"
      (by decide) (by decide) (by decide) (by decide) (by decide),
   C6_identity_resolver.2.2 "nonsense" (by decide) (by decide) (by decide)⟩
